import Mathlib

/-!
# Verification of `edfread` (parse.py, __init__.py)

Shallow embedding of the two source files of the `edfread` repository:
`src/edfread/parse.py` (read_edf, trials2events, save_h5, load_h5,
convert_edf) and `src/edfread/__init__.py` (the package import line).

Modelling conventions:
* A pandas cell is a `Cell`: a machine integer, the float NaN sentinel, a
  string, or an opaque Python object characterised by its `str()` text
  (`Cell.obj`).  Columns are cell lists, tables are ordered association
  lists from column name to column, matching pandas' ordered unique-ish
  column labels.
* An HDF5 group is its datasets plus its string-keyed attributes; an
  attribute value is either a JSON dictionary that `json.loads` accepts
  (`AttrVal.json`) or unparseable text (`AttrVal.malformed`).
* Python exceptions are the `PyError` atoms.  In Python's class hierarchy
  `RuntimeError`, `ValueError` (which `json.JSONDecodeError` extends),
  `KeyError`, `NameError` and `ImportError` are pairwise unrelated and none
  of them derives from `FileNotFoundError`.
* `edfread.edf_read` (the compiled binary decoder) is not part of the two
  source files; where a claim needs it, its output is modelled from the
  spec and marked `Modelled from the spec:` in the doc string.
-/

namespace Edfread

/-- One pandas cell: an integer, the NaN sentinel, a string, or an opaque
object (e.g. a nested list) characterised by its Python `str()` text. -/
inductive Cell where
  | num (x : Int)
  | nan
  | str (s : String)
  | obj (text : String)
  deriving DecidableEq, Repr

/-- A pandas column: a homogeneous-length list of cells. -/
abbrev Column := List Cell

/-- A pandas DataFrame, as an ordered association list of named columns. -/
abbrev Table := List (String × Column)

/-- An HDF5 attribute value: a JSON object text that `json.loads` parses to
a string-to-integer dictionary, or text `json.loads` rejects. -/
inductive AttrVal where
  | json (m : List (String × Int))
  | malformed
  deriving DecidableEq, Repr

/-- An HDF5 group: its named datasets and its attributes, in file order. -/
structure H5Group where
  datasets : List (String × Column)
  attrs : List (String × AttrVal)
  deriving DecidableEq, Repr

/-- An HDF5 file: one group per table name. -/
abbrev H5File := List (String × H5Group)

/-- Python exception classes raised by the code under `src/`.  They are
pairwise unrelated in Python's exception hierarchy, and none of them is
`FileNotFoundError` or a subclass of it. -/
inductive PyError where
  | runtimeError
  | fileNotFoundError
  | valueError
  | keyError
  | nameError
  | importError
  deriving DecidableEq, Repr

/-- `FileNotFoundError`-class test: of the exception classes occurring in
this code base only `FileNotFoundError` itself is in that class. -/
def PyError.isFileNotFoundClass : PyError → Bool
  | .fileNotFoundError => true
  | _ => false

/-- First-match association-list lookup, the model of a Python `dict`
lookup and of selecting a pandas column by label. -/
def lookupA {κ β : Type} [DecidableEq κ] (k : κ) : List (κ × β) → Option β
  | [] => none
  | (k', v) :: rest => if k' = k then some v else lookupA k rest

/-- Replace the value stored under key `field`, the model of
`table_df[field] = ...` (column assignment by label). -/
def rewriteCol {β : Type} (field : String) (f : β → β) :
    List (String × β) → List (String × β)
  | [] => []
  | (k, v) :: rest =>
    (if k = field then (k, f v) else (k, v)) :: rewriteCol field f rest

/-- `s.split('_')[0]` from parse.py line 113: the text before the first
underscore (the whole string when no underscore occurs). -/
def splitFirst (s : String) : String :=
  String.mk (s.toList.takeWhile (fun c => !(decide (c = '_'))))

/-- Whether a string contains an underscore. -/
def hasUnderscore (s : String) : Bool :=
  s.toList.any (fun c => decide (c = '_'))

/-- `str(value)`: the text pandas' `.astype(str)` produces for one cell. -/
def cellToStr : Cell → String
  | .num x => toString x
  | .nan => "nan"
  | .str s => s
  | .obj text => text

/-- Whether h5py's `create_dataset` accepts the cell inside a numeric
array: integers and the float NaN are storable, strings and objects raise
`TypeError`. -/
def isNumericCell : Cell → Bool
  | .num _ => true
  | .nan => true
  | _ => false

/-- A column is storable as a numeric dataset iff every cell is numeric
(object dtype, which h5py rejects with `TypeError`, otherwise). -/
def isNumericCol (col : Column) : Bool :=
  col.all isNumericCell

/-- Strict lexicographic order on code-point lists, the order `np.unique`
sorts strings by. -/
def charListLt : List Char → List Char → Bool
  | [], [] => false
  | [], _ :: _ => true
  | _ :: _, [] => false
  | a :: as, b :: bs =>
    if a < b then true else if b < a then false else charListLt as bs

/-- Strict lexicographic order on strings. -/
def strLt (a b : String) : Bool :=
  charListLt a.toList b.toList

/-- Insert a string into a strictly sorted duplicate-free list, dropping it
when already present. -/
def insertUnique (x : String) : List String → List String
  | [] => [x]
  | y :: ys =>
    if strLt x y then x :: y :: ys
    else if strLt y x then y :: insertUnique x ys
    else y :: ys

/-- `np.unique` on a string array: the distinct values in ascending
lexicographic order. -/
def npUnique (l : List String) : List String :=
  l.foldr insertUnique []

/-- `dict((key, i) for i, key in enumerate(values))`: pair each value with
its position. -/
def mkMappingAux (i : Int) : List String → List (String × Int)
  | [] => []
  | s :: rest => (s, i) :: mkMappingAux (i + 1) rest

/-- The value-to-integer dictionary of parse.py line 91: distinct sorted
values enumerated from 0. -/
def mkMapping (l : List String) : List (String × Int) :=
  mkMappingAux 0 l

/-- One loop body of `save_h5` (parse.py lines 79-95): try the numeric
dataset write; on `TypeError` coerce the column with `.astype(str)`, build
the value-to-integer dictionary over `np.unique`, store the integer codes
as the dataset, and record the dictionary in the `<field>_mapping`
attribute.  Returns the dataset plus the optional attribute. -/
def saveColumn (field : String) (col : Column) :
    (String × Column) × Option (String × AttrVal) :=
  if isNumericCol col then ((field, col), none)
  else
    let strs := col.map cellToStr
    let mapping := mkMapping (npUnique strs)
    ((field, strs.map (fun v => Cell.num ((lookupA v mapping).getD 0))),
     some (field ++ "_mapping", AttrVal.json mapping))

/-- `save_h5` on one table: one dataset per column, plus one mapping
attribute per remapped column. -/
def saveTable (t : Table) : H5Group :=
  { datasets := t.map (fun p => (saveColumn p.1 p.2).1)
    attrs := t.filterMap (fun p => (saveColumn p.1 p.2).2) }

/-- `save_h5` (parse.py lines 73-97) over a named table collection. -/
def save_h5 (data : List (String × Table)) : H5File :=
  data.map (fun p => (p.1, saveTable p.2))

/-- One iteration of `load_h5`'s attribute loop (parse.py lines 112-116):
`field = field_key.split('_')[0]`, `json.loads` (raising `ValueError` on
unparseable text), then `table_df[field] = table_df[field].map(reverse)`
(raising `KeyError` when no column `field` exists, and mapping every
integer code with no dictionary entry to NaN silently). -/
def applyMapping (cols : List (String × Column)) (fieldKey : String)
    (av : AttrVal) : Except PyError (List (String × Column)) :=
  let field := splitFirst fieldKey
  match av with
  | .malformed => .error .valueError
  | .json m =>
    let reverse := m.map (fun p => (p.2, p.1))
    match lookupA field cols with
    | none => .error .keyError
    | some _ =>
      .ok (rewriteCol field
        (fun col => col.map (fun c =>
          match c with
          | .num i =>
            match lookupA i reverse with
            | some s => Cell.str s
            | none => Cell.nan
          | _ => Cell.nan)) cols)

/-- Fold `applyMapping` over the group's attributes in order. -/
def applyAttrs : List (String × Column) → List (String × AttrVal) →
    Except PyError (List (String × Column))
  | cols, [] => .ok cols
  | cols, (k, v) :: rest =>
    match applyMapping cols k v with
    | .error e => .error e
    | .ok cols' => applyAttrs cols' rest

/-- `load_h5` on one group: read every dataset into a column, then apply
each attribute's inverse mapping. -/
def loadTable (g : H5Group) : Except PyError Table :=
  applyAttrs g.datasets g.attrs

/-- `load_h5` (parse.py lines 100-120): load every group, propagating the
first exception. -/
def load_h5 : H5File → Except PyError (List (String × Table))
  | [] => .ok []
  | (name, g) :: rest =>
    match loadTable g with
    | .error e => .error e
    | .ok t =>
      match load_h5 rest with
      | .error e => .error e
      | .ok others => .ok ((name, t) :: others)

/-- Modelled from the spec: the fixed Samples schema `sample_columns` is
declared in `edfread.edf_read`, which is not among the two source files;
the spec (§3, §4.6) and the `read_edf` doc string fix it as a predeclared
constant column list covering time, per-eye gaze position and pupil size. -/
def sample_columns : List String :=
  ["time", "gx_left", "gy_left", "pa_left", "gx_right", "gy_right", "pa_right"]

/-- Modelled from the spec: `edf_read.parse_edf` (not under `src/`) emits
sample records whose present fields are numeric; §4.6 requires the
assembled Samples table to carry the fixed `sample_columns` schema in
order, with a NaN sentinel wherever a record lacks a field — parse.py
line 64 then labels the array with exactly `sample_columns`. -/
def assembleSamples (recs : List (List (String × Int))) : Table :=
  sample_columns.map (fun c =>
    (c, recs.map (fun r =>
      match lookupA c r with
      | some v => Cell.num v
      | none => Cell.nan)))

/-- `read_edf` (parse.py lines 12-65): `os.path.isfile` is checked first
and failure raises `RuntimeError` before any decoding; otherwise the
decoder output (modelled from the spec, see `assembleSamples`) is
assembled into the three tables. -/
def read_edf (existingFiles : List String) (filename : String)
    (rawSamples : List (List (String × Int))) (events messages : Table) :
    Except PyError (Table × Table × Table) :=
  if existingFiles.contains filename then
    .ok (assembleSamples rawSamples, events, messages)
  else
    .error .runtimeError

/-- `trials2events` (parse.py lines 68-70): `events.merge(messages,
how="left", on=["trial"])`.  Rows carry their trial key and an opaque
payload of the non-key columns; each event row yields one output row per
matching message row, or a single row with missing metadata when no
message matches. -/
def trials2events {α β : Type} (events : List (Int × α))
    (messages : List (Int × β)) : List (Int × α × Option β) :=
  (events.map (fun e =>
    let ms := messages.filter (fun m => decide (m.1 = e.1))
    if ms.isEmpty then [(e.1, e.2, none)]
    else ms.map (fun m => (e.1, e.2, some m.2)))).flatten

/-- The top-level names module `edfread.parse` defines (its imports and
its five function definitions).  `save_human_understandable` is not among
them: parse.py defines `save_h5`. -/
def parseModuleNames : List String :=
  ["argparse", "json", "os", "h5py", "np", "pd", "edf_read",
   "read_edf", "trials2events", "save_h5", "load_h5", "convert_edf"]

/-- Python `from module import name`: `ImportError` when the module does
not bind the name. -/
def importFrom (module : List String) (name : String) :
    Except PyError String :=
  if module.contains name then .ok name else .error .importError

/-- `edfread/__init__.py` line 3: `from edfread.parse import read_edf,
save_human_understandable as save_h5`.  Line 4 (the `edf_read` imports) is
reached only if line 3 succeeds. -/
def initEdfread : Except PyError (List String) :=
  match importFrom parseModuleNames "read_edf" with
  | .error e => .error e
  | .ok n1 =>
    match importFrom parseModuleNames "save_human_understandable" with
    | .error e => .error e
    | .ok n2 => .ok [n1, n2]

/-- The messages-column filter of convert_edf's default branch (parse.py
lines 156-161): keep only columns whose dtype is not `object`. -/
def dropObjectColumns (t : Table) : Table :=
  t.filter (fun p => isNumericCol p.2)

/-- What `convert_edf` hands to the container writer. -/
inductive SaveOutcome where
  | remapped (f : H5File)
  | pandasHdf (tables : List (String × Table))
  deriving DecidableEq, Repr

/-- The save dispatch of `convert_edf` (parse.py lines 155-170).  Without
`-p` the code drops the messages' object columns and then evaluates the
global name `save_human_understandable`; since `edfread.parse` binds no
such name, that evaluation raises `NameError` (were it bound, it would be
the remapped writer `save_h5`).  With `-p` the three tables go through
`DataFrame.to_hdf`. -/
def convert_edf_save (pandas_hdf : Bool)
    (samples events messages : Table) : Except PyError SaveOutcome :=
  if !pandas_hdf then
    let messages' := dropObjectColumns messages
    if parseModuleNames.contains "save_human_understandable" then
      .ok (.remapped (save_h5
        [("samples", samples), ("events", events), ("messages", messages')]))
    else
      .error .nameError
  else
    .ok (.pandasHdf
      [("events", events), ("samples", samples), ("messages", messages)])

/-! ## Helper lemmas -/

theorem lookupA_cons {κ β : Type} [DecidableEq κ] (k k' : κ) (v : β)
    (rest : List (κ × β)) :
    lookupA k ((k', v) :: rest) = if k' = k then some v else lookupA k rest :=
  rfl

theorem rewriteCol_cons {β : Type} (field k : String) (f : β → β) (v : β)
    (rest : List (String × β)) :
    rewriteCol field f ((k, v) :: rest) =
      (if k = field then (k, f v) else (k, v)) :: rewriteCol field f rest :=
  rfl

theorem lookupA_rewriteCol_ne {β : Type} (field k : String) (f : β → β)
    (l : List (String × β)) (h : k ≠ field) :
    lookupA k (rewriteCol field f l) = lookupA k l := by
  induction l with
  | nil => rfl
  | cons p rest ih =>
    obtain ⟨k', v⟩ := p
    rw [rewriteCol_cons]
    by_cases hk : k' = field
    · rw [if_pos hk, lookupA_cons, lookupA_cons]
      have : k' ≠ k := fun hc => h (hc ▸ hk)
      rw [if_neg this, if_neg this, ih]
    · rw [if_neg hk, lookupA_cons, lookupA_cons, ih]

theorem stringMk_toList (s : String) : String.mk s.toList = s := by
  cases s
  rfl

theorem hasUnderscore_splitFirst (s : String) :
    hasUnderscore (splitFirst s) = false := by
  rw [hasUnderscore, splitFirst]
  cases hany : (String.mk (s.toList.takeWhile
      (fun c => !(decide (c = '_'))))).toList.any (fun c => decide (c = '_')) with
  | false => rfl
  | true =>
    exfalso
    obtain ⟨c, hc, hcu⟩ := List.any_eq_true.mp hany
    have hp := List.mem_takeWhile_imp (p := fun c => !(decide (c = '_'))) hc
    have hp' : (!(decide (c = '_'))) = true := hp
    rw [hcu] at hp'
    exact Bool.false_ne_true hp'

theorem splitFirst_ne_of_underscore (k name : String)
    (h : hasUnderscore name = true) : splitFirst k ≠ name := by
  intro hc
  have h2 := hasUnderscore_splitFirst k
  rw [hc, h] at h2
  exact Bool.false_ne_true h2.symm

theorem takeWhile_append_stop (p : Char → Bool) (l1 l2 : List Char) (d : Char)
    (h : ∀ c ∈ l1, p c = true) (hstop : p d = false) :
    (l1 ++ d :: l2).takeWhile p = l1 := by
  induction l1 with
  | nil => simp [List.takeWhile_cons, hstop]
  | cons c rest ih =>
    have hc : p c = true := h c (List.mem_cons_self c rest)
    simp only [List.cons_append, List.takeWhile_cons, hc, if_true]
    rw [ih (fun x hx => h x (List.mem_cons_of_mem c hx))]

theorem splitFirst_append_mapping (field : String)
    (h : hasUnderscore field = false) :
    splitFirst (field ++ "_mapping") = field := by
  rw [splitFirst]
  have hdata : (field ++ "_mapping").toList = field.toList ++ "_mapping".toList :=
    String.data_append field "_mapping"
  have hml : "_mapping".toList = '_' :: "mapping".toList := rfl
  rw [hdata, hml]
  rw [takeWhile_append_stop _ _ _ _ ?hall ?hstop]
  · exact stringMk_toList field
  case hall =>
    intro c hc
    have : ¬(decide (c = '_') = true) := by
      intro hcu
      have : field.toList.any (fun c => decide (c = '_')) = true :=
        List.any_eq_true.mpr ⟨c, hc, hcu⟩
      rw [hasUnderscore] at h
      rw [h] at this
      exact Bool.false_ne_true this
    simp only [Bool.not_eq_true] at this
    simp [this]
  case hstop => simp

theorem string_append_right_cancel (a b s : String)
    (h : a ++ s = b ++ s) : a = b := by
  have : (a ++ s).data = (b ++ s).data := congrArg String.data h
  rw [String.data_append, String.data_append] at this
  exact String.ext (List.append_cancel_right this)

theorem charListLt_trans (a b c : List Char) (h1 : charListLt a b = true)
    (h2 : charListLt b c = true) : charListLt a c = true := by
  induction a generalizing b c with
  | nil =>
    cases b with
    | nil => exact absurd h1 (by simp [charListLt])
    | cons y ys =>
      cases c with
      | nil => exact absurd h2 (by simp [charListLt])
      | cons z zs => rfl
  | cons x xs ih =>
    cases b with
    | nil => exact absurd h1 (by simp [charListLt])
    | cons y ys =>
      cases c with
      | nil => exact absurd h2 (by simp [charListLt])
      | cons z zs =>
        rw [charListLt] at h1 h2 ⊢
        by_cases hxy : x < y
        · by_cases hyz : y < z
          · rw [if_pos (lt_trans hxy hyz)]
          · rw [if_pos hxy] at h1
            by_cases hzy : z < y
            · rw [if_neg hyz, if_pos hzy] at h2
              exact absurd h2 (by simp)
            · have : y = z := le_antisymm (not_lt.mp hzy) (not_lt.mp hyz)
              rw [if_pos (this ▸ hxy)]
        · by_cases hyx : y < x
          · rw [if_neg hxy, if_pos hyx] at h1
            exact absurd h1 (by simp)
          · have hxy' : x = y := le_antisymm (not_lt.mp hyx) (not_lt.mp hxy)
            rw [if_neg hxy, if_neg hyx] at h1
            subst hxy'
            by_cases hyz : x < z
            · rw [if_pos hyz]
            · by_cases hzy : z < x
              · rw [if_neg hyz, if_pos hzy] at h2
                exact absurd h2 (by simp)
              · rw [if_neg hyz, if_neg hzy] at h2 ⊢
                exact ih ys zs h1 h2

theorem charListLt_eq_of_not_lt (a b : List Char)
    (h1 : charListLt a b = false) (h2 : charListLt b a = false) : a = b := by
  induction a generalizing b with
  | nil =>
    cases b with
    | nil => rfl
    | cons y ys => exact absurd h1 (by simp [charListLt])
  | cons x xs ih =>
    cases b with
    | nil => exact absurd h2 (by simp [charListLt])
    | cons y ys =>
      rw [charListLt] at h1 h2
      by_cases hxy : x < y
      · rw [if_pos hxy] at h1
        exact absurd h1 (by simp)
      · by_cases hyx : y < x
        · rw [if_pos hyx] at h2
          exact absurd h2 (by simp)
        · have hv : x = y := le_antisymm (not_lt.mp hyx) (not_lt.mp hxy)
          rw [if_neg hxy, if_neg hyx] at h1
          rw [if_neg hyx, if_neg hxy] at h2
          rw [hv, ih ys h1 h2]

theorem strLt_trans (a b c : String) (h1 : strLt a b = true)
    (h2 : strLt b c = true) : strLt a c = true :=
  charListLt_trans a.toList b.toList c.toList h1 h2

theorem strEq_of_not_lt (a b : String) (h1 : strLt a b = false)
    (h2 : strLt b a = false) : a = b :=
  String.ext (charListLt_eq_of_not_lt a.toList b.toList h1 h2)

theorem mem_insertUnique (z x : String) (l : List String) :
    z ∈ insertUnique x l ↔ z = x ∨ z ∈ l := by
  induction l with
  | nil => simp [insertUnique]
  | cons y ys ih =>
    rw [insertUnique]
    by_cases h1 : strLt x y = true
    · simp [h1]
    · rw [if_neg h1]
      by_cases h2 : strLt y x = true
      · rw [if_pos h2]
        simp only [List.mem_cons, ih]
        tauto
      · rw [if_neg h2]
        have : x = y := strEq_of_not_lt x y
          (Bool.not_eq_true _ ▸ h1) (Bool.not_eq_true _ ▸ h2)
        subst this
        simp only [List.mem_cons]
        tauto

theorem pairwise_insertUnique (x : String) (l : List String)
    (h : l.Pairwise (fun a b => strLt a b = true)) :
    (insertUnique x l).Pairwise (fun a b => strLt a b = true) := by
  induction l with
  | nil => simp [insertUnique]
  | cons y ys ih =>
    rw [List.pairwise_cons] at h
    obtain ⟨hy, hys⟩ := h
    rw [insertUnique]
    by_cases h1 : strLt x y = true
    · rw [if_pos h1, List.pairwise_cons]
      refine ⟨?_, List.pairwise_cons.mpr ⟨hy, hys⟩⟩
      intro z hz
      rcases List.mem_cons.mp hz with hz | hz
      · exact hz ▸ h1
      · exact strLt_trans x y z h1 (hy z hz)
    · rw [if_neg h1]
      by_cases h2 : strLt y x = true
      · rw [if_pos h2, List.pairwise_cons]
        refine ⟨?_, ih hys⟩
        intro z hz
        rcases (mem_insertUnique z x ys).mp hz with hz | hz
        · exact hz ▸ h2
        · exact hy z hz
      · rw [if_neg h2, List.pairwise_cons]
        exact ⟨hy, hys⟩

theorem pairwise_npUnique (l : List String) :
    (npUnique l).Pairwise (fun a b => strLt a b = true) := by
  induction l with
  | nil => simp [npUnique]
  | cons a as ih => exact pairwise_insertUnique a (npUnique as) ih

theorem mem_npUnique (z : String) (l : List String) :
    z ∈ npUnique l ↔ z ∈ l := by
  induction l with
  | nil => simp [npUnique]
  | cons a as ih =>
    show z ∈ insertUnique a (npUnique as) ↔ _
    rw [mem_insertUnique, ih]
    simp [List.mem_cons]

theorem mkMappingAux_map_fst (i : Int) (l : List String) :
    (mkMappingAux i l).map Prod.fst = l := by
  induction l generalizing i with
  | nil => rfl
  | cons s rest ih => simp [mkMappingAux, ih]

theorem mkMappingAux_map_snd (i : Int) (l : List String) :
    (mkMappingAux i l).map Prod.snd =
      (List.range l.length).map (fun j : Nat => i + (j : Int)) := by
  induction l generalizing i with
  | nil => rfl
  | cons s rest ih =>
    simp only [mkMappingAux, List.map_cons, List.length_cons,
      List.range_succ_eq_map, ih, List.map_map]
    congr 1
    · simp
    · apply List.map_congr_left
      intro j _
      simp only [Function.comp_apply]
      push_cast
      omega

theorem lookupA_mkMappingAux_mem (v : String) (n : Int) (l : List String)
    (h : v ∈ l) : ∃ i, lookupA v (mkMappingAux n l) = some i := by
  induction l generalizing n with
  | nil => exact absurd h (List.not_mem_nil v)
  | cons s rest ih =>
    rw [mkMappingAux, lookupA_cons]
    by_cases hs : s = v
    · exact ⟨n, if_pos hs ▸ rfl⟩
    · rw [if_neg hs]
      exact ih (n + 1) (List.mem_cons.mp h |>.resolve_left (fun hc => hs hc.symm))

theorem saveColumn_fst (field : String) (col : Column) :
    (saveColumn field col).1.1 = field := by
  rw [saveColumn]
  split <;> rfl

theorem saveColumn_not_numeric (field : String) (col : Column)
    (h : isNumericCol col = false) :
    saveColumn field col =
      ((field, (col.map cellToStr).map (fun v =>
          Cell.num ((lookupA v (mkMapping (npUnique (col.map cellToStr)))).getD 0))),
       some (field ++ "_mapping",
          AttrVal.json (mkMapping (npUnique (col.map cellToStr))))) := by
  rw [saveColumn, if_neg (by rw [h]; exact Bool.false_ne_true)]

theorem lookupA_saveTable_datasets (name : String) (t : Table) (col : Column)
    (hmem : lookupA name t = some col) :
    lookupA name (saveTable t).datasets = some (saveColumn name col).1.2 := by
  induction t with
  | nil => exact absurd hmem (by rw [lookupA]; exact Option.noConfusion)
  | cons p rest ih =>
    obtain ⟨f, c⟩ := p
    rw [lookupA_cons] at hmem
    show lookupA name ((saveColumn f c).1 :: (saveTable rest).datasets) = _
    rw [show (saveColumn f c).1 = ((saveColumn f c).1.1, (saveColumn f c).1.2) from rfl,
      lookupA_cons, saveColumn_fst]
    by_cases hf : f = name
    · rw [if_pos hf] at hmem ⊢
      obtain rfl : c = col := Option.some.inj hmem
      rw [hf]
    · rw [if_neg hf] at hmem ⊢
      exact ih hmem

theorem lookupA_saveTable_attrs (field : String) (t : Table) (col : Column)
    (hmem : lookupA field t = some col) (hnn : isNumericCol col = false) :
    lookupA (field ++ "_mapping") (saveTable t).attrs =
      some (AttrVal.json (mkMapping (npUnique (col.map cellToStr)))) := by
  induction t with
  | nil => exact absurd hmem (by rw [lookupA]; exact Option.noConfusion)
  | cons p rest ih =>
    obtain ⟨f, c⟩ := p
    rw [lookupA_cons] at hmem
    show lookupA (field ++ "_mapping")
      (List.filterMap (fun p => (saveColumn p.1 p.2).2) ((f, c) :: rest)) = _
    rw [List.filterMap_cons]
    by_cases hf : f = field
    · rw [if_pos hf] at hmem
      have hce : c = col := Option.some.inj hmem
      rw [hf, hce, saveColumn_not_numeric field col hnn]
      simp [lookupA_cons]
    · rw [if_neg hf] at hmem
      cases hsc : (saveColumn f c).2 with
      | none => exact ih hmem
      | some attr =>
        have hfst : attr.1 = f ++ "_mapping" := by
          rw [saveColumn] at hsc
          by_cases hnum : isNumericCol c = true
          · rw [if_pos hnum] at hsc
            exact absurd hsc Option.noConfusion
          · rw [if_neg hnum] at hsc
            obtain rfl := Option.some.inj hsc
            rfl
        rw [show attr = (attr.1, attr.2) from rfl, lookupA_cons, hfst]
        have hne : f ++ "_mapping" ≠ field ++ "_mapping" := fun hc =>
          hf (string_append_right_cancel f field "_mapping" hc)
        rw [if_neg hne]
        exact ih hmem

theorem applyMapping_ok_shape (cols cols' : List (String × Column))
    (k : String) (v : AttrVal) (h : applyMapping cols k v = .ok cols') :
    ∃ g, cols' = rewriteCol (splitFirst k) g cols := by
  cases v with
  | malformed => exact absurd h (by simp [applyMapping])
  | json m =>
    simp only [applyMapping] at h
    cases hl : lookupA (splitFirst k) cols with
    | none => rw [hl] at h; exact absurd h (by simp)
    | some c0 =>
      rw [hl] at h
      exact ⟨_, (Except.ok.inj h).symm⟩

theorem applyMapping_preserves_underscore (cols cols' : List (String × Column))
    (k name : String) (v : AttrVal) (h : applyMapping cols k v = .ok cols')
    (hund : hasUnderscore name = true) :
    lookupA name cols' = lookupA name cols := by
  obtain ⟨g, rfl⟩ := applyMapping_ok_shape cols cols' k v h
  exact lookupA_rewriteCol_ne (splitFirst k) name g cols
    (fun hc => splitFirst_ne_of_underscore k name hund hc.symm)

theorem applyAttrs_preserves_underscore (attrs : List (String × AttrVal))
    (cols cols' : List (String × Column)) (name : String)
    (h : applyAttrs cols attrs = .ok cols')
    (hund : hasUnderscore name = true) :
    lookupA name cols' = lookupA name cols := by
  induction attrs generalizing cols with
  | nil =>
    rw [applyAttrs] at h
    rw [Except.ok.inj h]
  | cons a rest ih =>
    obtain ⟨k, v⟩ := a
    rw [applyAttrs] at h
    cases ham : applyMapping cols k v with
    | error e => rw [ham] at h; exact absurd h (by intro hc; cases hc)
    | ok mid =>
      rw [ham] at h
      rw [ih mid h]
      exact applyMapping_preserves_underscore cols mid k name v ham hund

theorem filter_key_length_le_one {β : Type} (M : List (Int × β)) (k : Int)
    (h : (M.map Prod.fst).Nodup) :
    (M.filter (fun m => decide (m.1 = k))).length ≤ 1 := by
  induction M with
  | nil => simp
  | cons m rest ih =>
    rw [List.map_cons, List.nodup_cons] at h
    obtain ⟨hnot, hrest⟩ := h
    rw [List.filter_cons]
    by_cases hm : m.1 = k
    · rw [if_pos (by simp [hm])]
      have : rest.filter (fun m' => decide (m'.1 = k)) = [] := by
        rw [List.filter_eq_nil_iff]
        intro a ha
        simp only [decide_eq_true_eq]
        intro hc
        apply hnot
        have hak : a.1 = m.1 := hc.trans hm.symm
        exact hak ▸ List.mem_map_of_mem Prod.fst ha
      simp [this]
    · rw [if_neg (by simp [hm])]
      exact ih hrest

theorem trials2events_cons {α β : Type} (e : Int × α) (E : List (Int × α))
    (M : List (Int × β)) :
    trials2events (e :: E) M =
      (let ms := M.filter (fun m => decide (m.1 = e.1))
       if ms.isEmpty then [(e.1, e.2, none)]
       else ms.map (fun m => (e.1, e.2, some m.2))) ++ trials2events E M :=
  rfl

/-! ## Claim theorems -/

/-- C1: the persistence round-trip `load_h5 (save_h5 T)` does NOT
reconstruct every string column: for the one-table collection whose single
string column is named `my_col`, `load_h5` derives the column name `my`
from the attribute key `my_col_mapping` via `split('_')[0]`, finds no such
column, and raises `KeyError` instead of reconstructing the column (the
spec mandates exact element-wise round-trip equality). -/
theorem C1_roundtrip_underscore_keyerror :
    load_h5 (save_h5 [("t", [("my_col", [Cell.str "a", Cell.str "b"])])]) =
      Except.error PyError.keyError := by
  rfl

/-- C2 counterexample: `trials2events` is a pandas left merge, so an
events table with one row joined against a metadata table holding two rows
for the same trial yields 2 rows, not `len(E) = 1` — the claimed row-count
stability fails for metadata tables with duplicated trial keys. -/
theorem C2_counterexample :
    (trials2events [((1 : Int), (0 : Nat))]
        [((1 : Int), (10 : Nat)), ((1 : Int), (20 : Nat))]).length = 2 ∧
    ([((1 : Int), (0 : Nat))] : List (Int × Nat)).length = 1 := by
  exact ⟨rfl, rfl⟩

/-- C2 (amended): the trial join `trials2events` is a left join that is
row-count-stable on the events side whenever the trial-metadata table has
at most one row per trial index (pairwise distinct trial keys): then
`len(join(E, M)) = len(E)`; with duplicated trial keys each matching event
row is replicated once per matching metadata row. -/
theorem C2_left_join_row_count {α β : Type} (E : List (Int × α))
    (M : List (Int × β)) (h : (M.map Prod.fst).Nodup) :
    (trials2events E M).length = E.length := by
  induction E with
  | nil => rfl
  | cons e rest ih =>
    rw [trials2events_cons, List.length_append, ih]
    have hblock : (let ms := M.filter (fun m => decide (m.1 = e.1))
        if ms.isEmpty then [(e.1, e.2, (none : Option β))]
        else ms.map (fun m => (e.1, e.2, some m.2))).length = 1 := by
      cases hms : M.filter (fun m => decide (m.1 = e.1)) with
      | nil => simp [hms]
      | cons m0 ms0 =>
        have hle := filter_key_length_le_one M e.1 h
        rw [hms] at hle
        simp only [hms, List.isEmpty_cons, Bool.false_eq_true, if_false,
          List.length_map]
        simp only [List.length_cons] at hle ⊢
        omega
    rw [hblock, List.length_cons]
    omega

/-- C2 witness: at a concrete events table with two rows and a metadata
table with distinct trial keys, the join has exactly the events row
count. -/
theorem C2_witness :
    (trials2events [((1 : Int), (0 : Nat)), ((3 : Int), (1 : Nat))]
        [((1 : Int), (10 : Nat)), ((2 : Int), (20 : Nat))]).length =
      ([((1 : Int), (0 : Nat)), ((3 : Int), (1 : Nat))] :
        List (Int × Nat)).length :=
  C2_left_join_row_count
    [((1 : Int), (0 : Nat)), ((3 : Int), (1 : Nat))]
    [((1 : Int), (10 : Nat)), ((2 : Int), (20 : Nat))] (by decide)

/-- C4 counterexample: on a path naming no existing file, `read_edf`
raises `RuntimeError` ("File does not exist"), which is not a
`FileNotFoundError`-class signal — `RuntimeError` does not derive from
`FileNotFoundError` (nor from `OSError`) in Python's hierarchy. -/
theorem C4_counterexample :
    read_edf [] "missing.edf" [] [] [] =
      Except.error PyError.runtimeError ∧
    PyError.runtimeError.isFileNotFoundClass = false := by
  exact ⟨rfl, rfl⟩

/-- C4 (amended): for every file path that does not name an existing
file, `read_edf` fails before decoding begins — but with `RuntimeError`,
not with a `FileNotFoundError`-class signal. -/
theorem C4_missing_file (existingFiles : List String) (filename : String)
    (rawSamples : List (List (String × Int))) (events messages : Table)
    (h : existingFiles.contains filename = false) :
    read_edf existingFiles filename rawSamples events messages =
      Except.error PyError.runtimeError := by
  rw [read_edf.eq_def, if_neg (by rw [h]; exact Bool.false_ne_true)]

/-- C4 witness: a concrete missing file. -/
theorem C4_witness :
    read_edf ["present.edf"] "absent.edf" [] [] [] =
      Except.error PyError.runtimeError :=
  C4_missing_file ["present.edf"] "absent.edf" [] [] [] (by decide)

/-- C7: `convert_edf`'s save dispatch at the failing input — without the
`-p`/`--pandas_hdf` flag the default branch evaluates the global name
`save_human_understandable`, which `edfread.parse` does not bind, and so
raises `NameError` instead of writing the remapped container claimed by
the spec; the `-p` branch does use the generic per-table pandas HDF
writer. -/
theorem C7_cli_dispatch (samples events messages : Table) :
    convert_edf_save false samples events messages =
      Except.error PyError.nameError ∧
    convert_edf_save true samples events messages =
      Except.ok (SaveOutcome.pandasHdf
        [("events", events), ("samples", samples), ("messages", messages)]) := by
  exact ⟨rfl, rfl⟩

/-- C10: the package's public binding for the persistence writer is
inconsistent: `edfread.parse` binds no name `save_human_understandable`
(only `save_h5`), so `__init__.py` line 3 raises `ImportError` when the
package is imported, and `convert_edf`'s default (non `-p`) save path
raises `NameError` instead of writing output. -/
theorem C10_missing_save_binding :
    parseModuleNames.contains "save_human_understandable" = false ∧
    initEdfread = Except.error PyError.importError ∧
    ∀ samples events messages : Table,
      convert_edf_save false samples events messages =
        Except.error PyError.nameError := by
  exact ⟨rfl, rfl, fun _ _ _ => rfl⟩

/-- C3: for every non-numeric column, `save_h5` stores under the column's
name the integer-coded array obtained by looking each stringified value up
in the value-to-integer dictionary, persists that dictionary in the
attribute named `<column>_mapping`, and the dictionary enumerates exactly
the distinct values of the column, in ascending (sorted, duplicate-free)
order, paired with the unique consecutive integers 0, 1, 2, …. -/
theorem C3_string_column_mapping (field : String) (col : Column)
    (h : isNumericCol col = false) :
    (saveColumn field col).2 =
      some (field ++ "_mapping",
        AttrVal.json (mkMapping (npUnique (col.map cellToStr)))) ∧
    (saveColumn field col).1 =
      (field, (col.map cellToStr).map (fun v =>
        Cell.num ((lookupA v (mkMapping (npUnique (col.map cellToStr)))).getD 0))) ∧
    (∀ v, v ∈ npUnique (col.map cellToStr) ↔ v ∈ col.map cellToStr) ∧
    (npUnique (col.map cellToStr)).Pairwise (fun a b => strLt a b = true) ∧
    (mkMapping (npUnique (col.map cellToStr))).map Prod.fst =
      npUnique (col.map cellToStr) ∧
    (mkMapping (npUnique (col.map cellToStr))).map Prod.snd =
      (List.range (npUnique (col.map cellToStr)).length).map
        (fun j : Nat => (j : Int)) := by
  rw [saveColumn_not_numeric field col h]
  refine ⟨rfl, rfl, fun v => mem_npUnique v (col.map cellToStr),
    pairwise_npUnique (col.map cellToStr),
    mkMappingAux_map_fst 0 (npUnique (col.map cellToStr)), ?_⟩
  rw [show mkMapping (npUnique (col.map cellToStr)) =
    mkMappingAux 0 (npUnique (col.map cellToStr)) from rfl,
    mkMappingAux_map_snd]
  apply List.map_congr_left
  intro j _
  omega

/-- C3 witness: Scenario C — the column `label` = ["a", "b", "a", ""] is
stored as codes [1, 2, 1, 0] with the attribute `label_mapping` holding
exactly the 3 distinct entries {"": 0, "a": 1, "b": 2}. -/
theorem C3_witness :
    (saveColumn "label"
        [Cell.str "a", Cell.str "b", Cell.str "a", Cell.str ""]).2 =
      some ("label_mapping", AttrVal.json [("", 0), ("a", 1), ("b", 2)]) ∧
    (saveColumn "label"
        [Cell.str "a", Cell.str "b", Cell.str "a", Cell.str ""]).1 =
      ("label", [Cell.num 1, Cell.num 2, Cell.num 1, Cell.num 0]) ∧
    (mkMapping (npUnique
        ([Cell.str "a", Cell.str "b", Cell.str "a", Cell.str ""].map
          cellToStr))).length = 3 := by
  have h := C3_string_column_mapping "label"
    [Cell.str "a", Cell.str "b", Cell.str "a", Cell.str ""] (by decide)
  exact ⟨h.1.trans rfl, h.2.1.trans rfl, rfl⟩

/-- C5 counterexample: a column of nested (object) values is not rejected:
`save_h5` silently coerces it with `.astype(str)` and stores the remapped
codes plus a mapping attribute — no `UnsupportedColumnTypeError` is raised
(no such error class exists anywhere in the code base). -/
theorem C5_counterexample :
    save_h5 [("t", [("c", [Cell.obj "[1, 2]", Cell.obj "[3, 4]"])])] =
      [("t", { datasets := [("c", [Cell.num 0, Cell.num 1])],
               attrs := [("c_mapping",
                 AttrVal.json [("[1, 2]", 0), ("[3, 4]", 1)])] })] := by
  rfl

/-- C5 (amended): `save_h5` never fails on a column whose values are
neither numeric nor text: every such column is coerced elementwise to its
`str()` representation and stored as same-length integer codes together
with a `<column>_mapping` attribute whose dictionary maps each coerced
value to its code. -/
theorem C5_save_never_fails (field : String) (t : Table) (col : Column)
    (hmem : lookupA field t = some col) (hnn : isNumericCol col = false) :
    ∃ codes m,
      lookupA field (saveTable t).datasets = some codes ∧
      lookupA (field ++ "_mapping") (saveTable t).attrs =
        some (AttrVal.json m) ∧
      codes.length = col.length ∧
      (∀ c ∈ codes, ∃ i, c = Cell.num i) ∧
      (∀ (j : Nat) (c : Cell), col[j]? = some c →
        ∃ i, codes[j]? = some (Cell.num i) ∧
          lookupA (cellToStr c) m = some i) := by
  refine ⟨(saveColumn field col).1.2,
    mkMapping (npUnique (col.map cellToStr)),
    lookupA_saveTable_datasets field t col hmem,
    lookupA_saveTable_attrs field t col hmem hnn, ?_, ?_, ?_⟩
  · rw [saveColumn_not_numeric field col hnn]
    simp
  · rw [saveColumn_not_numeric field col hnn]
    intro c hc
    simp only [List.mem_map] at hc
    obtain ⟨v, _, rfl⟩ := hc
    exact ⟨_, rfl⟩
  · intro j c hj
    rw [saveColumn_not_numeric field col hnn]
    have hmem' : cellToStr c ∈ npUnique (col.map cellToStr) :=
      (mem_npUnique _ _).mpr
        (List.mem_map_of_mem cellToStr (List.getElem?_mem hj))
    obtain ⟨i, hi⟩ := lookupA_mkMappingAux_mem (cellToStr c) 0 _ hmem'
    refine ⟨i, ?_, hi⟩
    simp only [List.getElem?_map, hj, Option.map_some']
    rw [show mkMapping (npUnique (col.map cellToStr)) =
      mkMappingAux 0 (npUnique (col.map cellToStr)) from rfl, hi]
    rfl

/-- C5 witness: a concrete table whose single column holds a nested list
object. -/
theorem C5_witness :
    ∃ codes m,
      lookupA "c" (saveTable [("c", [Cell.obj "[1, 2]"])]).datasets =
        some codes ∧
      lookupA ("c" ++ "_mapping")
          (saveTable [("c", [Cell.obj "[1, 2]"])]).attrs =
        some (AttrVal.json m) ∧
      codes.length = ([Cell.obj "[1, 2]"] : Column).length ∧
      (∀ c ∈ codes, ∃ i, c = Cell.num i) ∧
      (∀ (j : Nat) (c : Cell), ([Cell.obj "[1, 2]"] : Column)[j]? = some c →
        ∃ i, codes[j]? = some (Cell.num i) ∧
          lookupA (cellToStr c) m = some i) :=
  C5_save_never_fails "c" [("c", [Cell.obj "[1, 2]"])]
    [Cell.obj "[1, 2]"] (by decide) (by decide)

/-- C6 counterexample: a stored container whose column data holds the
integer code 5 while the mapping dictionary only covers "a" ↦ 0 is loaded
WITHOUT any error: `load_h5` silently maps the unmapped code to the
missing-value sentinel NaN instead of failing with any
`CorruptMappingError`-like signal. -/
theorem C6_counterexample :
    load_h5 [("t", { datasets := [("label", [Cell.num 5])],
                     attrs := [("label_mapping",
                       AttrVal.json [("a", 0)])] })] =
      Except.ok [("t", [("label", [Cell.nan])])] := by
  rfl

/-- C6 (amended): when a column's mapping metadata is unparseable,
`load_h5` fails with `ValueError` (the class of `json.JSONDecodeError`),
not a `CorruptMappingError`; and when an integer code has no entry in the
mapping, `load_h5` does not fail at all — it silently yields the NaN
missing-value sentinel at that position (no `CorruptMappingError` class
exists anywhere in the code base). -/
theorem C6_corrupt_mapping_behavior (tname field : String)
    (codes : List Int) (m : List (String × Int))
    (hf : hasUnderscore field = false) :
    load_h5 [(tname,
        { datasets := [(field, codes.map Cell.num)],
          attrs := [(field ++ "_mapping", AttrVal.malformed)] })] =
      Except.error PyError.valueError ∧
    ∃ col : Column,
      load_h5 [(tname,
          { datasets := [(field, codes.map Cell.num)],
            attrs := [(field ++ "_mapping", AttrVal.json m)] })] =
        Except.ok [(tname, [(field, col)])] ∧
      col.length = codes.length ∧
      ∀ (j : Nat) (i : Int), codes[j]? = some i →
        lookupA i (m.map (fun p => (p.2, p.1))) = none →
        col[j]? = some Cell.nan := by
  have hsp := splitFirst_append_mapping field hf
  constructor
  · rfl
  · refine ⟨codes.map (fun i =>
      match lookupA i (m.map (fun p => (p.2, p.1))) with
      | some s => Cell.str s
      | none => Cell.nan), ?_, ?_, ?_⟩
    · have h1 : loadTable
          { datasets := [(field, codes.map Cell.num)],
            attrs := [(field ++ "_mapping", AttrVal.json m)] } =
          Except.ok [(field, codes.map (fun i =>
            match lookupA i (m.map (fun p => (p.2, p.1))) with
            | some s => Cell.str s
            | none => Cell.nan))] := by
        simp only [loadTable, applyAttrs, applyMapping, hsp, lookupA_cons,
          if_pos rfl, rewriteCol_cons, rewriteCol, List.map_map]
        congr 2
      rw [load_h5, h1, load_h5]
    · simp
    · intro j i hj hnone
      simp only [List.getElem?_map, hj, Option.map_some', hnone]

/-- C6 witness: the concrete group with an out-of-range code and a
one-entry mapping, plus the malformed-metadata case. -/
theorem C6_witness :
    load_h5 [("t",
        { datasets := [("label", [Cell.num 5])],
          attrs := [("label" ++ "_mapping", AttrVal.malformed)] })] =
      Except.error PyError.valueError ∧
    ∃ col : Column,
      load_h5 [("t",
          { datasets := [("label", [Cell.num 5])],
            attrs := [("label" ++ "_mapping",
              AttrVal.json [("a", 0)])] })] =
        Except.ok [("t", [("label", col)])] ∧
      col.length = [(5 : Int)].length ∧
      ∀ (j : Nat) (i : Int), [(5 : Int)][j]? = some i →
        lookupA i ([("a", (0 : Int))].map (fun p => (p.2, p.1))) = none →
        col[j]? = some Cell.nan :=
  C6_corrupt_mapping_behavior "t" "label" [5] [("a", 0)] (by decide)

/-- C8: every successful decode returns a Samples table whose column set
and order is exactly the predeclared `sample_columns` schema, whatever
fields the source records carried; every column has one cell per record,
and a record lacking a field contributes the NaN sentinel, not a schema
change.  (`edf_read.parse_edf` is not under `src/`; the record assembly is
modelled from the spec, see `assembleSamples`.) -/
theorem C8_fixed_sample_schema (existingFiles : List String)
    (filename : String) (rawSamples : List (List (String × Int)))
    (events messages : Table) (samples e m : Table)
    (hok : read_edf existingFiles filename rawSamples events messages =
      Except.ok (samples, e, m)) :
    samples = assembleSamples rawSamples ∧
    samples.map Prod.fst = sample_columns ∧
    ∀ (i : Nat) (c : String) (col : Column),
      samples[i]? = some (c, col) →
      col.length = rawSamples.length ∧
      ∀ (j : Nat) (r : List (String × Int)), rawSamples[j]? = some r →
        lookupA c r = none → col[j]? = some Cell.nan := by
  have hsamples : samples = assembleSamples rawSamples := by
    rw [read_edf.eq_def] at hok
    by_cases hc : existingFiles.contains filename = true
    · rw [if_pos hc] at hok
      exact congrArg (fun p => p.1) (Except.ok.inj hok).symm
    · rw [if_neg hc] at hok
      exact absurd hok (by simp)
  subst hsamples
  refine ⟨rfl, ?_, ?_⟩
  · rw [assembleSamples, List.map_map]
    have h1 : List.map (Prod.fst ∘ fun c => (c,
        rawSamples.map (fun r =>
          match lookupA c r with
          | some v => Cell.num v
          | none => Cell.nan))) sample_columns
        = List.map (fun c => c) sample_columns :=
      List.map_congr_left (fun a _ => rfl)
    rw [h1]
    simp
  · intro i c col hi
    rw [assembleSamples] at hi
    rw [List.getElem?_map] at hi
    cases hsc : sample_columns[i]? with
    | none => rw [hsc] at hi; exact absurd hi (by simp)
    | some c0 =>
      rw [hsc, Option.map_some'] at hi
      obtain ⟨hc0, hcol⟩ := Prod.mk.injEq .. ▸ Option.some.inj hi
      constructor
      · rw [← hcol, List.length_map]
      · intro j r hj hnone
        rw [← hc0] at hnone
        rw [← hcol, List.getElem?_map, hj, Option.map_some', hnone]

/-- C8 witness: one record carrying only `time` yields the full fixed
schema with NaN in the gaze column. -/
theorem C8_witness :
    (assembleSamples [[("time", 5)]]).map Prod.fst = sample_columns ∧
    (assembleSamples [[("time", 5)]])[1]? = some ("gx_left", [Cell.nan]) ∧
    ([Cell.nan] : Column)[0]? = some Cell.nan := by
  have h := C8_fixed_sample_schema ["f.edf"] "f.edf" [[("time", 5)]]
    [] [] (assembleSamples [[("time", 5)]]) [] [] (by rfl)
  refine ⟨h.2.1, by rfl, ?_⟩
  exact ((h.2.2 1 "gx_left" [Cell.nan] (by rfl)).2 0 [("time", 5)]
    (by rfl) (by rfl))

/-- C9: `load_h5` recovers a remapped column's name from the attribute key
by taking the text before the FIRST underscore, which never equals a
column name containing an underscore (first conjunct: no attribute key can
ever address such a column); consequently for every saved single-table
collection with a non-numeric column whose name contains an underscore,
whenever the load succeeds at all, the reloaded column differs from the
original — the save/load round-trip does not reconstruct it. -/
theorem C9_split_breaks_underscore_columns (tname name : String)
    (t : Table) (col : Column)
    (_hnodup : (t.map Prod.fst).Nodup)
    (hmem : lookupA name t = some col)
    (hund : hasUnderscore name = true)
    (hstr : isNumericCol col = false) :
    (∀ k : String, splitFirst k ≠ name) ∧
    ∀ d t', load_h5 (save_h5 [(tname, t)]) = Except.ok d →
      lookupA tname d = some t' → lookupA name t' ≠ some col := by
  refine ⟨fun k => splitFirst_ne_of_underscore k name hund, ?_⟩
  intro d t' hload hlook
  show lookupA name t' ≠ some col
  have hsave : save_h5 [(tname, t)] = [(tname, saveTable t)] := rfl
  rw [hsave, load_h5] at hload
  cases hlt : loadTable (saveTable t) with
  | error e => rw [hlt] at hload; exact absurd hload (by simp)
  | ok tb =>
    rw [hlt, load_h5] at hload
    obtain rfl : [(tname, tb)] = d := Except.ok.inj hload
    rw [lookupA_cons, if_pos rfl] at hlook
    obtain rfl : tb = t' := Option.some.inj hlook
    rw [loadTable] at hlt
    have hpres := applyAttrs_preserves_underscore (saveTable t).attrs
      (saveTable t).datasets _ name hlt hund
    rw [hpres, lookupA_saveTable_datasets name t col hmem]
    have hcodes : (saveColumn name col).1.2 =
        (col.map cellToStr).map (fun v =>
          Cell.num ((lookupA v (mkMapping (npUnique (col.map cellToStr)))).getD 0)) := by
      rw [saveColumn_not_numeric name col hstr]
    rw [hcodes]
    intro hc
    have hcells := Option.some.inj hc
    obtain ⟨bad, hbadmem, hbadnum⟩ :
        ∃ x ∈ col, ¬(isNumericCell x = true) := by
      rw [isNumericCol] at hstr
      exact List.all_eq_false.mp hstr |>.imp (fun x hx => ⟨hx.1, hx.2⟩)
    have hbad' : bad ∈ (col.map cellToStr).map (fun v =>
        Cell.num ((lookupA v (mkMapping (npUnique (col.map cellToStr)))).getD 0)) :=
      hcells.symm ▸ hbadmem
    obtain ⟨v, _, hveq⟩ := List.mem_map.mp hbad'
    rw [← hveq] at hbadnum
    exact hbadnum rfl

/-- C9 witness: the concrete table whose string column `my_col` contains
an underscore. -/
theorem C9_witness :
    (∀ k : String, splitFirst k ≠ "my_col") ∧
    ∀ d t', load_h5 (save_h5 [("t", [("my_col", [Cell.str "a"])])]) =
        Except.ok d →
      lookupA "t" d = some t' →
      lookupA "my_col" t' ≠ some [Cell.str "a"] :=
  C9_split_breaks_underscore_columns "t" "my_col"
    [("my_col", [Cell.str "a"])] [Cell.str "a"]
    (by decide) (by decide) (by decide) (by decide)

end Edfread
